import Mathlib

set_option maxRecDepth 4000

/-!
Verification of the octasox `.ot` reader (src/octasox.cc).

The program is shallowly embedded for a little-endian host (the byte order the
`ntohl`/`ntohs` calls in the source assume they have to reverse):

* A file's contents are a `List Nat` of byte values; a file that cannot be
  opened is `none` (on a failed stream both `tellg()` calls return -1, so the
  computed `numBytes` is 0).
* `ot::OTData` is the packed struct; multi-byte fields hold `Nat` values.
  After the raw `f.read` overlay, a field holds the little-endian (native)
  interpretation of its on-disk bytes (`readLE32` / `readLE16`); the
  conversion step applies `ntohl` / `ntohs`, which on such a host reverse the
  bytes, yielding the big-endian interpretation (`readBE32` / `readBE16`).
* `load` models `load(const char*, ot::OTData&)`: the size gate compares the
  file length with `sizeof(ot::OTData)` (packed: 832 bytes), then converts the
  scalar fields and the first `sliceCount` slice entries.
* `extractSlices` models the slice loop in `main` (one output line per
  iteration, bound `i < data.sliceCount`, reading `data.slices[i]`); for
  `i ≥ 64` that read is past the end of the 64-entry array in the C program
  (undefined behavior), modelled here by `getD`'s default.
* `runMain` models `main`'s argument loop: non-`.ot` names are skipped with
  processing continuing; an exception thrown by `load` is not caught anywhere,
  so it aborts the run, and no further argument is processed.
-/

namespace Octasox

/-- struct ot::Slice: startPoint, endPoint, loopPoint (uint32_t each). -/
structure Slice where
  startPoint : Nat
  endPoint : Nat
  loopPoint : Nat
deriving Repr, DecidableEq

/-- struct ot::OTData (packed, pragma pack(1)).  `slices` has capacity 64. -/
structure OTData where
  header : List Nat
  unknown : List Nat
  tempo : Nat
  trimLen : Nat
  loopLen : Nat
  stretch : Nat
  loop : Nat
  gain : Nat
  quantize : Nat
  trimStart : Nat
  trimEnd : Nat
  loopPoint : Nat
  slices : List Slice
  sliceCount : Nat
  checkSum : Nat
deriving Repr, DecidableEq

/-- The constant ot::header_bytes from the source (declared, never compared
against any file content by `load`). -/
def header_bytes : List Nat :=
  [0x46, 0x4F, 0x52, 0x4D, 0x00, 0x00, 0x00, 0x00,
   0x44, 0x50, 0x53, 0x31, 0x53, 0x4D, 0x50, 0x41]

/-- sizeof(ot::OTData) under pragma pack(1): the sum of the field widths. -/
def otDataSize : Nat :=
  16 + 7 + 4 + 4 + 4 + 4 + 4 + 2 + 1 + 4 + 4 + 4 + 64 * 12 + 4 + 2

/-- Byte `i` of a buffer (0 past the end). -/
def byteAt (bs : List Nat) (i : Nat) : Nat := bs.getD i 0

/-- Little-endian (native) interpretation of the 4 bytes at `off`. -/
def readLE32 (bs : List Nat) (off : Nat) : Nat :=
  byteAt bs off + 256 * byteAt bs (off + 1) + 65536 * byteAt bs (off + 2)
    + 16777216 * byteAt bs (off + 3)

/-- Little-endian (native) interpretation of the 2 bytes at `off`. -/
def readLE16 (bs : List Nat) (off : Nat) : Nat :=
  byteAt bs off + 256 * byteAt bs (off + 1)

/-- Big-endian interpretation of the 4 bytes at `off`. -/
def readBE32 (bs : List Nat) (off : Nat) : Nat :=
  16777216 * byteAt bs off + 65536 * byteAt bs (off + 1) + 256 * byteAt bs (off + 2)
    + byteAt bs (off + 3)

/-- Big-endian interpretation of the 2 bytes at `off`. -/
def readBE16 (bs : List Nat) (off : Nat) : Nat :=
  256 * byteAt bs off + byteAt bs (off + 1)

/-- ntohl on a little-endian host: reverse the four bytes of a 32-bit value. -/
def ntohl (x : Nat) : Nat :=
  x % 256 * 16777216 + x / 256 % 256 * 65536 + x / 65536 % 256 * 256 + x / 16777216 % 256

/-- ntohs on a little-endian host: swap the two bytes of a 16-bit value. -/
def ntohs (x : Nat) : Nat :=
  x % 256 * 256 + x / 256 % 256

/-- The struct as it sits in memory right after `f.read` on a little-endian
host: each multi-byte field is the native (little-endian) interpretation of
its on-disk bytes, at the packed offsets documented in the source. -/
def rawRead (bs : List Nat) : OTData where
  header := bs.take 16
  unknown := (bs.drop 16).take 7
  tempo := readLE32 bs 23
  trimLen := readLE32 bs 27
  loopLen := readLE32 bs 31
  stretch := readLE32 bs 35
  loop := readLE32 bs 39
  gain := readLE16 bs 43
  quantize := byteAt bs 45
  trimStart := readLE32 bs 46
  trimEnd := readLE32 bs 50
  loopPoint := readLE32 bs 54
  slices := (List.range 64).map fun i =>
    { startPoint := readLE32 bs (58 + 12 * i)
      endPoint := readLE32 bs (58 + 12 * i + 4)
      loopPoint := readLE32 bs (58 + 12 * i + 8) }
  sliceCount := readLE32 bs 826
  checkSum := readLE16 bs 830

/-- Body of the conversion loop in `load`: byte-swap one slice entry. -/
def convertSlice (s : Slice) : Slice :=
  { startPoint := ntohl s.startPoint
    endPoint := ntohl s.endPoint
    loopPoint := ntohl s.loopPoint }

/-- The slice conversion loop: entries at position `start + k < n` are
byte-swapped, later entries are left exactly as read.  (When `n` exceeds the
array length the C loop writes past the array — undefined behavior; the
embedding simply runs out of entries.) -/
def convertSlices (n : Nat) : Nat → List Slice → List Slice
  | _, [] => []
  | i, s :: rest => (if i < n then convertSlice s else s) :: convertSlices n (i + 1) rest

/-- The endianness-conversion block of `load` (lines 150-168): every scalar
multi-byte field is swapped, `sliceCount` is swapped first, then the loop
swaps slice entries `0 ≤ i < sliceCount`. -/
def convert (d : OTData) : OTData :=
  let n := ntohl d.sliceCount
  { d with
    tempo := ntohl d.tempo
    trimLen := ntohl d.trimLen
    loopLen := ntohl d.loopLen
    stretch := ntohl d.stretch
    loop := ntohl d.loop
    gain := ntohs d.gain
    trimStart := ntohl d.trimStart
    trimEnd := ntohl d.trimEnd
    loopPoint := ntohl d.loopPoint
    sliceCount := n
    checkSum := ntohs d.checkSum
    slices := convertSlices n 0 d.slices }

/-- The single exception message thrown by `load`. -/
def otFileError (file : String) : String :=
  file ++ " This is not a valid .ot file"

/-- Model of `load(file, data)`: determine `numBytes` from the stream (a stream that
failed to open reports `tellg() = -1` at both ends, so `numBytes = 0`),
compare with `sizeof(ot::OTData)`, then read and convert.  The one `throw`
in the function is the size-gate `runtime_error`. -/
def load (file : String) (contents : Option (List Nat)) : Except String OTData :=
  let numBytes : Nat := match contents with
    | none => 0
    | some bs => bs.length
  if numBytes = otDataSize then
    Except.ok (convert (rawRead (contents.getD [])))
  else
    Except.error (otFileError file)

/-- One line of output from the slice loop in `main`. -/
structure SliceDescriptor where
  index : Nat
  startPoint : Nat
  endPoint : Nat
deriving Repr, DecidableEq

/-- Access of `data.slices[i]` as done by the loops: in the C program an access at
`i ≥ 64` is past the end of the array (undefined behavior); the embedding
returns a default entry there. -/
def sliceAt (d : OTData) (i : Nat) : Slice := d.slices.getD i ⟨0, 0, 0⟩

/-- The slice loop of `main` (lines 196-209): one descriptor per iteration,
`i` running from 0 up to `data.sliceCount` — with no clamp against the
64-entry capacity. -/
def extractSlices (d : OTData) : List SliceDescriptor :=
  (List.range d.sliceCount).map fun i =>
    { index := i
      startPoint := (sliceAt d i).startPoint
      endPoint := (sliceAt d i).endPoint }

/-- A buffer whose entries are byte values. -/
abbrev IsBytes (bs : List Nat) : Prop := ∀ b ∈ bs, b < 256

theorem isBytes_append {xs ys : List Nat} (hx : IsBytes xs) (hy : IsBytes ys) :
    IsBytes (xs ++ ys) := by
  intro b hb
  rcases List.mem_append.mp hb with h | h
  exacts [hx b h, hy b h]

theorem isBytes_replicate (n c : Nat) (h : c < 256) : IsBytes (List.replicate n c) := by
  intro b hb
  rw [List.eq_of_mem_replicate hb]
  exact h

theorem byteAt_lt_256 {bs : List Nat} (hb : IsBytes bs) (i : Nat) : byteAt bs i < 256 := by
  rw [byteAt]
  rcases lt_or_le i bs.length with h | h
  · rw [List.getD_eq_getElem bs 0 h]
    exact hb _ (List.getElem_mem h)
  · rw [List.getD_eq_default bs 0 h]
    omega

theorem byteAt_drop (bs : List Nat) (off k : Nat) :
    byteAt (bs.drop off) k = byteAt bs (off + k) := by
  induction off generalizing bs with
  | zero => simp [byteAt]
  | succ n ih =>
    cases bs with
    | nil => simp [byteAt]
    | cons a t =>
      rw [List.drop_succ_cons, ih t]
      rw [byteAt, byteAt, Nat.add_right_comm n 1 k, List.getD_cons_succ]

theorem byteAt_of_drop {bs rest : List Nat} {off b0 : Nat} (h : bs.drop off = b0 :: rest) :
    byteAt bs off = b0 := by
  have h0 := byteAt_drop bs off 0
  rw [h] at h0
  simpa [byteAt] using h0.symm

theorem drop_of_drop {bs rest : List Nat} {off b0 : Nat} (h : bs.drop off = b0 :: rest) :
    bs.drop (off + 1) = rest := by
  rw [← List.drop_drop, h]
  simp

theorem readLE32_of_drop {bs rest : List Nat} {off b0 b1 b2 b3 : Nat}
    (h : bs.drop off = b0 :: b1 :: b2 :: b3 :: rest) :
    readLE32 bs off = b0 + 256 * b1 + 65536 * b2 + 16777216 * b3 := by
  have d1 := drop_of_drop h
  have d2 := drop_of_drop d1
  have d3 := drop_of_drop d2
  have e2 : byteAt bs (off + 2) = b2 := by
    rw [show off + 2 = off + 1 + 1 by omega]
    exact byteAt_of_drop d2
  have e3 : byteAt bs (off + 3) = b3 := by
    rw [show off + 3 = off + 1 + 1 + 1 by omega]
    exact byteAt_of_drop d3
  rw [readLE32, byteAt_of_drop h, byteAt_of_drop d1, e2, e3]

theorem readBE32_of_drop {bs rest : List Nat} {off b0 b1 b2 b3 : Nat}
    (h : bs.drop off = b0 :: b1 :: b2 :: b3 :: rest) :
    readBE32 bs off = 16777216 * b0 + 65536 * b1 + 256 * b2 + b3 := by
  have d1 := drop_of_drop h
  have d2 := drop_of_drop d1
  have d3 := drop_of_drop d2
  have e2 : byteAt bs (off + 2) = b2 := by
    rw [show off + 2 = off + 1 + 1 by omega]
    exact byteAt_of_drop d2
  have e3 : byteAt bs (off + 3) = b3 := by
    rw [show off + 3 = off + 1 + 1 + 1 by omega]
    exact byteAt_of_drop d3
  rw [readBE32, byteAt_of_drop h, byteAt_of_drop d1, e2, e3]

theorem readLE16_of_drop {bs rest : List Nat} {off b0 b1 : Nat}
    (h : bs.drop off = b0 :: b1 :: rest) :
    readLE16 bs off = b0 + 256 * b1 := by
  rw [readLE16, byteAt_of_drop h, byteAt_of_drop (drop_of_drop h)]

theorem readBE16_of_drop {bs rest : List Nat} {off b0 b1 : Nat}
    (h : bs.drop off = b0 :: b1 :: rest) :
    readBE16 bs off = 256 * b0 + b1 := by
  rw [readBE16, byteAt_of_drop h, byteAt_of_drop (drop_of_drop h)]

/-- On byte buffers, `ntohl` of the native (little-endian) read is the
big-endian read: the conversion step turns each on-disk field into its
big-endian value. -/
theorem ntohl_readLE32 {bs : List Nat} (hb : IsBytes bs) (off : Nat) :
    ntohl (readLE32 bs off) = readBE32 bs off := by
  have h0 := byteAt_lt_256 hb off
  have h1 := byteAt_lt_256 hb (off + 1)
  have h2 := byteAt_lt_256 hb (off + 2)
  have h3 := byteAt_lt_256 hb (off + 3)
  rw [ntohl, readLE32, readBE32]
  omega

theorem ntohs_readLE16 {bs : List Nat} (hb : IsBytes bs) (off : Nat) :
    ntohs (readLE16 bs off) = readBE16 bs off := by
  have h0 := byteAt_lt_256 hb off
  have h1 := byteAt_lt_256 hb (off + 1)
  rw [ntohs, readLE16, readBE16]
  omega

theorem otDataSize_eq : otDataSize = 832 := rfl

theorem load_ok (file : String) (bs : List Nat) (h : bs.length = 832) :
    load file (some bs) = Except.ok (convert (rawRead bs)) := by
  rw [load]
  simp [otDataSize_eq, h]

theorem load_err (file : String) (bs : List Nat) (h : bs.length ≠ 832) :
    load file (some bs) = Except.error (otFileError file) := by
  rw [load]
  simp [otDataSize_eq, h]

theorem load_none (file : String) :
    load file none = Except.error (otFileError file) := by
  rw [load]
  simp [otDataSize_eq]

theorem convert_tempo (d : OTData) : (convert d).tempo = ntohl d.tempo := rfl
theorem convert_trimLen (d : OTData) : (convert d).trimLen = ntohl d.trimLen := rfl
theorem convert_loopLen (d : OTData) : (convert d).loopLen = ntohl d.loopLen := rfl
theorem convert_stretch (d : OTData) : (convert d).stretch = ntohl d.stretch := rfl
theorem convert_loop (d : OTData) : (convert d).loop = ntohl d.loop := rfl
theorem convert_gain (d : OTData) : (convert d).gain = ntohs d.gain := rfl
theorem convert_quantize (d : OTData) : (convert d).quantize = d.quantize := rfl
theorem convert_trimStart (d : OTData) : (convert d).trimStart = ntohl d.trimStart := rfl
theorem convert_trimEnd (d : OTData) : (convert d).trimEnd = ntohl d.trimEnd := rfl
theorem convert_loopPoint (d : OTData) : (convert d).loopPoint = ntohl d.loopPoint := rfl
theorem convert_sliceCount (d : OTData) : (convert d).sliceCount = ntohl d.sliceCount := rfl
theorem convert_checkSum (d : OTData) : (convert d).checkSum = ntohs d.checkSum := rfl
theorem convert_slices (d : OTData) :
    (convert d).slices = convertSlices (ntohl d.sliceCount) 0 d.slices := rfl

theorem rawRead_tempo (bs : List Nat) : (rawRead bs).tempo = readLE32 bs 23 := rfl
theorem rawRead_trimLen (bs : List Nat) : (rawRead bs).trimLen = readLE32 bs 27 := rfl
theorem rawRead_loopLen (bs : List Nat) : (rawRead bs).loopLen = readLE32 bs 31 := rfl
theorem rawRead_stretch (bs : List Nat) : (rawRead bs).stretch = readLE32 bs 35 := rfl
theorem rawRead_loop (bs : List Nat) : (rawRead bs).loop = readLE32 bs 39 := rfl
theorem rawRead_gain (bs : List Nat) : (rawRead bs).gain = readLE16 bs 43 := rfl
theorem rawRead_quantize (bs : List Nat) : (rawRead bs).quantize = byteAt bs 45 := rfl
theorem rawRead_trimStart (bs : List Nat) : (rawRead bs).trimStart = readLE32 bs 46 := rfl
theorem rawRead_trimEnd (bs : List Nat) : (rawRead bs).trimEnd = readLE32 bs 50 := rfl
theorem rawRead_loopPoint (bs : List Nat) : (rawRead bs).loopPoint = readLE32 bs 54 := rfl
theorem rawRead_sliceCount (bs : List Nat) : (rawRead bs).sliceCount = readLE32 bs 826 := rfl
theorem rawRead_checkSum (bs : List Nat) : (rawRead bs).checkSum = readLE16 bs 830 := rfl

theorem convertSlices_length (n : Nat) (ss : List Slice) (i : Nat) :
    (convertSlices n i ss).length = ss.length := by
  induction ss generalizing i with
  | nil => rfl
  | cons s t ih => simp [convertSlices, ih]

theorem convertSlices_getD (n : Nat) (ss : List Slice) (start i : Nat) (h : i < ss.length) :
    (convertSlices n start ss).getD i ⟨0, 0, 0⟩ =
      if start + i < n then convertSlice (ss.getD i ⟨0, 0, 0⟩) else ss.getD i ⟨0, 0, 0⟩ := by
  induction ss generalizing start i with
  | nil => simp at h
  | cons s t ih =>
    cases i with
    | zero => simp [convertSlices]
    | succ j =>
      rw [convertSlices, List.getD_cons_succ, List.getD_cons_succ,
        ih (start + 1) j (by simpa using h)]
      rw [show start + 1 + j = start + (j + 1) by omega]

theorem getD_range_map {α : Type} (f : Nat → α) (k i : Nat) (d : α) (h : i < k) :
    ((List.range k).map f).getD i d = f i := by
  have hl : i < ((List.range k).map f).length := by simpa using h
  rw [List.getD_eq_getElem _ d hl, List.getElem_map, List.getElem_range]

theorem rawRead_sliceAt (bs : List Nat) (i : Nat) (hi : i < 64) :
    (rawRead bs).slices.getD i ⟨0, 0, 0⟩ =
      { startPoint := readLE32 bs (58 + 12 * i)
        endPoint := readLE32 bs (58 + 12 * i + 4)
        loopPoint := readLE32 bs (58 + 12 * i + 8) } := by
  have h : (rawRead bs).slices = (List.range 64).map fun i =>
      ({ startPoint := readLE32 bs (58 + 12 * i)
         endPoint := readLE32 bs (58 + 12 * i + 4)
         loopPoint := readLE32 bs (58 + 12 * i + 8) } : Slice) := rfl
  rw [h]
  exact getD_range_map _ 64 i _ hi

/-- The slice entry the program sees after `load`: byte-swapped below the
converted count, exactly as read from disk at or above it. -/
theorem sliceAt_load (bs : List Nat) (i : Nat) (hi : i < 64) :
    sliceAt (convert (rawRead bs)) i =
      if i < ntohl (readLE32 bs 826) then
        convertSlice { startPoint := readLE32 bs (58 + 12 * i)
                       endPoint := readLE32 bs (58 + 12 * i + 4)
                       loopPoint := readLE32 bs (58 + 12 * i + 8) }
      else
        { startPoint := readLE32 bs (58 + 12 * i)
          endPoint := readLE32 bs (58 + 12 * i + 4)
          loopPoint := readLE32 bs (58 + 12 * i + 8) } := by
  have hlen : i < (rawRead bs).slices.length := by
    rw [rawRead]
    simpa using hi
  rw [sliceAt, convert_slices, convertSlices_getD _ _ 0 i hlen, Nat.zero_add,
    rawRead_sliceAt bs i hi]
  have hc : (rawRead bs).sliceCount = readLE32 bs 826 := rfl
  rw [hc]

/-- Big-endian encoding of a 32-bit value, most significant byte first. -/
def be32 (x : Nat) : List Nat :=
  [x / 16777216 % 256, x / 65536 % 256, x / 256 % 256, x % 256]

/-- Big-endian encoding of a 16-bit value. -/
def be16 (x : Nat) : List Nat :=
  [x / 256 % 256, x % 256]

/-- On-disk bytes of one slice entry. -/
def serializeSlice (s : Slice) : List Nat :=
  be32 s.startPoint ++ be32 s.endPoint ++ be32 s.loopPoint

/-- A record written back to disk in the documented packed big-endian layout. -/
def serialize (d : OTData) : List Nat :=
  d.header ++ d.unknown ++ be32 d.tempo ++ be32 d.trimLen ++ be32 d.loopLen ++
  be32 d.stretch ++ be32 d.loop ++ be16 d.gain ++ [d.quantize % 256] ++
  be32 d.trimStart ++ be32 d.trimEnd ++ be32 d.loopPoint ++
  (d.slices.map serializeSlice).flatten ++ be32 d.sliceCount ++ be16 d.checkSum

/-- A record whose fields fit the widths of the on-disk layout. -/
abbrev WF (d : OTData) : Prop :=
  d.header.length = 16 ∧ IsBytes d.header ∧
  d.unknown.length = 7 ∧ IsBytes d.unknown ∧
  d.tempo < 4294967296 ∧ d.trimLen < 4294967296 ∧ d.loopLen < 4294967296 ∧
  d.stretch < 4294967296 ∧ d.loop < 4294967296 ∧ d.gain < 65536 ∧ d.quantize < 256 ∧
  d.trimStart < 4294967296 ∧ d.trimEnd < 4294967296 ∧ d.loopPoint < 4294967296 ∧
  d.slices.length = 64 ∧
  (∀ s ∈ d.slices,
    s.startPoint < 4294967296 ∧ s.endPoint < 4294967296 ∧ s.loopPoint < 4294967296) ∧
  d.sliceCount < 4294967296 ∧ d.checkSum < 65536

theorem length_serializeSlice (s : Slice) : (serializeSlice s).length = 12 := rfl

theorem length_flatten_slices (ss : List Slice) :
    ((ss.map serializeSlice).flatten).length = 12 * ss.length := by
  induction ss with
  | nil => rfl
  | cons s t ih =>
    rw [List.map_cons, List.flatten_cons, List.length_append, ih, length_serializeSlice,
      List.length_cons]
    omega

theorem sum_lengths_slices (ss : List Slice) :
    (ss.map (List.length ∘ serializeSlice)).sum = 12 * ss.length := by
  induction ss with
  | nil => rfl
  | cons s t ih =>
    rw [List.map_cons, List.sum_cons, ih, List.length_cons, Function.comp_apply,
      length_serializeSlice]
    omega

theorem length_serialize (d : OTData) (hh : d.header.length = 16) (hu : d.unknown.length = 7)
    (hs : d.slices.length = 64) : (serialize d).length = 832 := by
  have h2 : (d.slices.map (List.length ∘ serializeSlice)).sum = 768 := by
    rw [sum_lengths_slices, hs]
  simp [serialize, length_flatten_slices, hh, hu, hs, h2, be32, be16]

theorem drop_app {pre : List Nat} (rest : List Nat) (n : Nat) (h : pre.length = n) :
    (pre ++ rest).drop n = rest := by
  rw [← h]
  exact List.drop_left pre rest

theorem drop_step {bs seg rest : List Nat} {off n : Nat} (hseg : seg.length = n)
    (h : bs.drop off = seg ++ rest) : bs.drop (off + n) = rest := by
  have h2 := congrArg (List.drop n) h
  rw [List.drop_drop, drop_app rest n hseg] at h2
  exact h2

theorem ntohl_bytes {b0 b1 b2 b3 : Nat} (h0 : b0 < 256) (h1 : b1 < 256) (h2 : b2 < 256)
    (h3 : b3 < 256) :
    ntohl (b0 + 256 * b1 + 65536 * b2 + 16777216 * b3) =
      16777216 * b0 + 65536 * b1 + 256 * b2 + b3 := by
  rw [ntohl]
  omega

theorem ntohs_bytes {b0 b1 : Nat} (h0 : b0 < 256) (h1 : b1 < 256) :
    ntohs (b0 + 256 * b1) = 256 * b0 + b1 := by
  rw [ntohs]
  omega

/-- Loading a serialized 32-bit field (native read, then `ntohl`) recovers it. -/
theorem ntohl_of_be32 {bs rest : List Nat} {off x : Nat} (hx : x < 4294967296)
    (h : bs.drop off = be32 x ++ rest) : ntohl (readLE32 bs off) = x := by
  rw [be32] at h
  simp only [List.cons_append, List.nil_append] at h
  rw [readLE32_of_drop h,
    ntohl_bytes (Nat.mod_lt _ (by omega)) (Nat.mod_lt _ (by omega)) (Nat.mod_lt _ (by omega))
      (Nat.mod_lt _ (by omega))]
  omega

/-- Loading a serialized 16-bit field (native read, then `ntohs`) recovers it. -/
theorem ntohs_of_be16 {bs rest : List Nat} {off x : Nat} (hx : x < 65536)
    (h : bs.drop off = be16 x ++ rest) : ntohs (readLE16 bs off) = x := by
  rw [be16] at h
  simp only [List.cons_append, List.nil_append] at h
  rw [readLE16_of_drop h, ntohs_bytes (Nat.mod_lt _ (by omega)) (Nat.mod_lt _ (by omega))]
  omega

theorem flatten_slices_drop (ss : List Slice) (Z : List Nat) (i : Nat) (h : i < ss.length) :
    ∃ rest, ((ss.map serializeSlice).flatten ++ Z).drop (12 * i) =
      serializeSlice (ss.getD i ⟨0, 0, 0⟩) ++ rest := by
  induction ss generalizing i Z with
  | nil => simp at h
  | cons s t ih =>
    cases i with
    | zero =>
      refine ⟨(t.map serializeSlice).flatten ++ Z, ?_⟩
      rw [List.map_cons, List.flatten_cons, List.append_assoc, Nat.mul_zero, List.drop_zero,
        List.getD_cons_zero]
    | succ j =>
      obtain ⟨rest, hr⟩ := ih Z j (by simpa using h)
      refine ⟨rest, ?_⟩
      rw [List.map_cons, List.flatten_cons, List.append_assoc, List.getD_cons_succ,
        show 12 * (j + 1) = 12 + 12 * j by ring, ← List.drop_drop,
        drop_app _ 12 (length_serializeSlice s)]
      exact hr

theorem drop_to {bs seg rest : List Nat} {off : Nat} (m : Nat)
    (h : bs.drop off = seg ++ rest) (hm : off + seg.length = m) : bs.drop m = rest := by
  rw [← hm]
  exact drop_step rfl h

/-- The extension filter in `main`: a name is processed only when it has at
least 3 characters and its last three are ".ot"; otherwise the argument is
skipped and the loop continues. -/
def isOtName (s : String) : Bool :=
  !(s.length < 3 || (s.drop (s.length - 3) != ".ot"))

/-- One line printed by the slice loop in `main`: companion input filename
(base name + ".wav"), slice index (used for the zero-padded output filename
suffix), and the trim range. -/
structure OutputLine where
  input : String
  sliceIndex : Nat
  startPoint : Nat
  endPoint : Nat
deriving Repr, DecidableEq

/-- All lines `main` prints for one successfully loaded file. -/
def fileLines (file : String) (d : OTData) : List OutputLine :=
  (extractSlices d).map fun s =>
    { input := file.dropRight 3 ++ ".wav"
      sliceIndex := s.index
      startPoint := s.startPoint
      endPoint := s.endPoint }

/-- The argument loop of `main`, over (file name, file contents) pairs.
Names failing the extension filter are skipped with `continue`; but the
exception a failing `load` throws is caught nowhere in the program, so it
propagates out of `main` and aborts the run (the `Option String` component):
nothing more is printed and no later argument is processed. -/
def runMain : List (String × Option (List Nat)) → List OutputLine × Option String
  | [] => ([], none)
  | (file, contents) :: rest =>
    if isOtName file then
      match load file contents with
      | Except.error e => ([], some e)
      | Except.ok d =>
        let r := runMain rest
        (fileLines file d ++ r.1, r.2)
    else runMain rest

/-- C1 counterexample: the fixed size the gate compares against is not 830.
This concrete 832-byte file — whose length differs from 830 — loads
successfully and produces a record, while a 830-byte file is rejected. -/
theorem C1_counterexample :
    (List.replicate 832 0).length ≠ 830 ∧
    load "sample.ot" (some (List.replicate 832 0)) =
      Except.ok (convert (rawRead (List.replicate 832 0))) ∧
    load "sample.ot" (some (List.replicate 830 0)) =
      Except.error (otFileError "sample.ot") := by
  refine ⟨by simp, load_ok _ _ (by simp), load_err _ _ (by simp)⟩

/-- C1 (amended): the size gate compares the file length against
sizeof(ot::OTData) = 832 bytes (packed layout); every input of any other
length fails with the FormatError and produces no record. -/
theorem C1_size_gate :
    otDataSize = 832 ∧
    ∀ (file : String) (bs : List Nat), bs.length ≠ 832 →
      load file (some bs) = Except.error (otFileError file) :=
  ⟨rfl, fun file bs h => load_err file bs h⟩

theorem C1_size_gate_witness :
    load "sample2.ot" (some (List.replicate 830 0)) = Except.error (otFileError "sample2.ot") :=
  C1_size_gate.2 "sample2.ot" (List.replicate 830 0) (by simp)

/-- A loaded record whose sliceCount (70) exceeds the 64-entry capacity. -/
def overCountRecord : OTData :=
  { header := List.replicate 16 0
    unknown := List.replicate 7 0
    tempo := 0
    trimLen := 0
    loopLen := 0
    stretch := 0
    loop := 0
    gain := 0
    quantize := 0
    trimStart := 0
    trimEnd := 0
    loopPoint := 0
    slices := List.replicate 64 ⟨0, 0, 0⟩
    sliceCount := 70
    checkSum := 0 }

/-- C2 (code bug): the slice loop in `main` runs `i` from 0 to
`data.sliceCount` with no clamp against the 64-entry capacity: with
sliceCount = 70 it emits 70 descriptors — not min(70, 64) = 64 — and it does
access slice index 64, which in the C program is a read past the end of
`slices[64]` (undefined behavior). -/
theorem C2_out_of_bounds :
    (extractSlices overCountRecord).length = 70 ∧
    (extractSlices overCountRecord).length ≠ min overCountRecord.sliceCount 64 ∧
    64 ∈ (extractSlices overCountRecord).map SliceDescriptor.index ∧
    overCountRecord.slices.length = 64 := by
  refine ⟨?_, ?_, ?_, ?_⟩ <;> decide

/-- C5 counterexample: an unopenable file produces no distinguishable
IOError: on the failed stream both tellg() calls return -1, `numBytes`
computes to 0, and `load` throws the very same FormatError a size-mismatched
(here: empty) file gets. -/
theorem C5_counterexample :
    load "missing.ot" none = load "missing.ot" (some []) ∧
    load "missing.ot" none = Except.error (otFileError "missing.ot") := by
  constructor
  · rw [load_none, load_err _ _ (by simp)]
  · exact load_none _

/-- C5 (amended): for an unopenable file `load` does fail, but with the same
error value as any byte-length mismatch — IOError and FormatError are not
distinguishable in the result. -/
theorem C5_same_error (file : String) (bs : List Nat) (h : bs.length ≠ 832) :
    load file none = Except.error (otFileError file) ∧
    load file none = load file (some bs) := by
  refine ⟨load_none file, ?_⟩
  rw [load_none, load_err file bs h]

theorem C5_same_error_witness :
    load "gone.ot" none = Except.error (otFileError "gone.ot") ∧
    load "gone.ot" none = load "gone.ot" (some [1, 2, 3]) :=
  C5_same_error "gone.ot" [1, 2, 3] (by simp)

/-- C9: `load` never inspects the header magic (ot::header_bytes) or the
reserved bytes: success is equivalent to the size gate alone, failure happens
exactly on a size mismatch or an unreadable file, and in particular an
all-zero 832-byte file whose first 16 bytes differ from ot::header_bytes
loads successfully. -/
theorem C9_no_header_check :
    (∀ (file : String) (bs : List Nat),
      (∃ d, load file (some bs) = Except.ok d) ↔ bs.length = 832) ∧
    (∀ file : String, load file none = Except.error (otFileError file)) ∧
    (List.replicate 832 0).take 16 ≠ header_bytes ∧
    (∃ d, load "zero.ot" (some (List.replicate 832 0)) = Except.ok d) := by
  refine ⟨?_, fun f => load_none f, by decide, ⟨_, load_ok _ _ (by simp)⟩⟩
  intro file bs
  constructor
  · rintro ⟨d, hd⟩
    by_contra h
    rw [load_err file bs h] at hd
    exact absurd hd (by simp)
  · intro h
    exact ⟨_, load_ok file bs h⟩

/-- A valid 832-byte file with one slice: start 7, end 8, loop 0. -/
def oneSliceFile : List Nat :=
  List.replicate 58 0 ++ [0, 0, 0, 7, 0, 0, 0, 8, 0, 0, 0, 0] ++ List.replicate 756 0 ++
    [0, 0, 0, 1] ++ [0, 0]

/-- C4 counterexample: a FormatError for one file is NOT recovered from in a
multi-file invocation: `main` never catches the exception `load` throws, so
the run aborts at the failing file. Processed alone, "good.ot" contributes
its output line; placed after the failing "bad.ot", it is never processed and
the whole run produces no output at all. -/
theorem C4_counterexample :
    runMain [("bad.ot", some [0]), ("good.ot", some oneSliceFile)] =
      ([], some (otFileError "bad.ot")) ∧
    runMain [("good.ot", some oneSliceFile)] =
      ([{ input := "good.wav", sliceIndex := 0, startPoint := 7, endPoint := 8 }], none) := by
  constructor
  · rfl
  · rfl

/-- C4 (amended): an error raised by `load` is thrown as an exception that no
caller catches: as soon as the argument loop reaches an `.ot` file whose load
fails, the entire invocation aborts — no output line is produced from that
point on and no remaining file is processed.  Only the extension filter
skips a file and continues. -/
theorem C4_abort (file : String) (contents : Option (List Nat))
    (rest : List (String × Option (List Nat))) (hext : isOtName file = true)
    (e : String) (herr : load file contents = Except.error e) :
    runMain ((file, contents) :: rest) = ([], some e) := by
  simp [runMain, hext, herr]

theorem C4_abort_witness :
    runMain [("x.ot", some (List.replicate 5 0)), ("y.ot", some oneSliceFile)] =
      ([], some (otFileError "x.ot")) :=
  C4_abort "x.ot" (some (List.replicate 5 0)) [("y.ot", some oneSliceFile)] (by decide)
    (otFileError "x.ot") (load_err _ _ (by simp))

/-- C6: on every well-formed (832-byte) input, every multi-byte scalar field
of the loaded record is the big-endian interpretation of its on-disk bytes
(the native `readLE` value passed through `ntohl`/`ntohs`); in particular a
tempo stored as bytes 0x00 0x00 0x05 0xA0 is read back as the native integer
1440 and not any other reordering. -/
theorem C6_big_endian (file : String) (bs : List Nat) (hb : IsBytes bs)
    (hl : bs.length = 832) :
    ∃ d, load file (some bs) = Except.ok d ∧
      d.tempo = readBE32 bs 23 ∧ d.trimLen = readBE32 bs 27 ∧ d.loopLen = readBE32 bs 31 ∧
      d.stretch = readBE32 bs 35 ∧ d.loop = readBE32 bs 39 ∧ d.gain = readBE16 bs 43 ∧
      d.quantize = byteAt bs 45 ∧ d.trimStart = readBE32 bs 46 ∧ d.trimEnd = readBE32 bs 50 ∧
      d.loopPoint = readBE32 bs 54 ∧ d.sliceCount = readBE32 bs 826 ∧
      d.checkSum = readBE16 bs 830 ∧
      (byteAt bs 23 = 0 → byteAt bs 24 = 0 → byteAt bs 25 = 5 → byteAt bs 26 = 160 →
        d.tempo = 1440) := by
  refine ⟨convert (rawRead bs), load_ok file bs hl, ntohl_readLE32 hb 23, ntohl_readLE32 hb 27,
    ntohl_readLE32 hb 31, ntohl_readLE32 hb 35, ntohl_readLE32 hb 39, ntohs_readLE16 hb 43,
    rfl, ntohl_readLE32 hb 46, ntohl_readLE32 hb 50, ntohl_readLE32 hb 54,
    ntohl_readLE32 hb 826, ntohs_readLE16 hb 830, ?_⟩
  intro h23 h24 h25 h26
  show ntohl (readLE32 bs 23) = 1440
  rw [ntohl_readLE32 hb 23, readBE32]
  simp [h23, h24, h25, h26]

/-- Concrete file for the byte-order scenario: tempo bytes 0x00 0x00 0x05
0xA0 at offset 0x17. -/
def tempoFile : List Nat :=
  List.replicate 23 0 ++ [0, 0, 5, 160] ++ List.replicate 805 0

theorem C6_big_endian_witness :
    ∃ d, load "t.ot" (some tempoFile) = Except.ok d ∧ d.tempo = 1440 := by
  have hb : IsBytes tempoFile :=
    isBytes_append (isBytes_append (isBytes_replicate 23 0 (by omega)) (by decide))
      (isBytes_replicate 805 0 (by omega))
  obtain ⟨d, hok, -, -, -, -, -, -, -, -, -, -, -, -, himp⟩ :=
    C6_big_endian "t.ot" tempoFile hb (by simp [tempoFile])
  exact ⟨d, hok, himp (by decide) (by decide) (by decide) (by decide)⟩

/-- C7 (frame): `load` byte-swaps exactly the slice entries at indices
0 ≤ i < sliceCount (converted first): those become the big-endian value of
their disk bytes.  Entries at or beyond sliceCount are left unconverted —
they keep the value whose native (little-endian) memory bytes are exactly
the bytes read from disk. -/
theorem C7_frame (file : String) (bs : List Nat) (hb : IsBytes bs) (hl : bs.length = 832)
    (hn : readBE32 bs 826 ≤ 64) :
    ∃ d, load file (some bs) = Except.ok d ∧ d.sliceCount = readBE32 bs 826 ∧
      (∀ i, i < d.sliceCount →
        sliceAt d i =
          { startPoint := readBE32 bs (58 + 12 * i)
            endPoint := readBE32 bs (58 + 12 * i + 4)
            loopPoint := readBE32 bs (58 + 12 * i + 8) }) ∧
      (∀ i, d.sliceCount ≤ i → i < 64 →
        sliceAt d i =
          { startPoint := readLE32 bs (58 + 12 * i)
            endPoint := readLE32 bs (58 + 12 * i + 4)
            loopPoint := readLE32 bs (58 + 12 * i + 8) }) := by
  have hcnt : (convert (rawRead bs)).sliceCount = readBE32 bs 826 := ntohl_readLE32 hb 826
  refine ⟨convert (rawRead bs), load_ok file bs hl, hcnt, ?_, ?_⟩
  · intro i hi
    rw [hcnt] at hi
    rw [sliceAt_load bs i (lt_of_lt_of_le hi hn),
      if_pos (by rw [ntohl_readLE32 hb 826]; exact hi), convertSlice]
    simp only [ntohl_readLE32 hb]
  · intro i hi hlt
    rw [hcnt] at hi
    rw [sliceAt_load bs i hlt, if_neg (by rw [ntohl_readLE32 hb 826]; omega)]

/-- Concrete file for the frame property: sliceCount = 1, slice 0 =
(2, 3, 4) big-endian, and slice 1's startPoint bytes are 0x09 0x00 0x00 0x00
— unconverted they read back as the native (little-endian) value 9. -/
def frameFile : List Nat :=
  List.replicate 58 0 ++ [0, 0, 0, 2, 0, 0, 0, 3, 0, 0, 0, 4] ++ [9, 0, 0, 0] ++
    List.replicate 752 0 ++ [0, 0, 0, 1] ++ [0, 0]

theorem C7_frame_witness :
    ∃ d, load "f.ot" (some frameFile) = Except.ok d ∧ d.sliceCount = 1 ∧
      sliceAt d 0 = ⟨2, 3, 4⟩ ∧ sliceAt d 1 = ⟨9, 0, 0⟩ := by
  have hb : IsBytes frameFile :=
    isBytes_append
      (isBytes_append
        (isBytes_append
          (isBytes_append (isBytes_append (isBytes_replicate 58 0 (by omega)) (by decide))
            (by decide))
          (isBytes_replicate 752 0 (by omega)))
        (by decide))
      (by decide)
  obtain ⟨d, hok, hcnt, hconv, hraw⟩ :=
    C7_frame "f.ot" frameFile hb (by simp [frameFile]) (by decide)
  have hc1 : d.sliceCount = 1 := by rw [hcnt]; decide
  refine ⟨d, hok, hc1, ?_, ?_⟩
  · rw [hconv 0 (by omega)]
    decide
  · rw [hraw 1 (by omega) (by omega)]
    decide

/-- C8: the descriptors `main`'s slice loop produces appear in strictly
increasing index order starting at 0, matching on-disk slice order, exactly
one per valid slice index, and each carries startPoint and endPoint verbatim
from the corresponding slice record. -/
theorem C8_ordering (d : OTData) (hc : d.sliceCount ≤ 64) (hl : d.slices.length = 64) :
    (extractSlices d).length = d.sliceCount ∧
    (extractSlices d).map SliceDescriptor.index = List.range d.sliceCount ∧
    List.Pairwise (· < ·) ((extractSlices d).map SliceDescriptor.index) ∧
    ∀ i, i < d.sliceCount →
      (extractSlices d).getD i ⟨0, 0, 0⟩ =
        { index := i
          startPoint := (sliceAt d i).startPoint
          endPoint := (sliceAt d i).endPoint } := by
  have hmap : (extractSlices d).map SliceDescriptor.index = List.range d.sliceCount := by
    rw [extractSlices, List.map_map]
    have h2 : (SliceDescriptor.index ∘ fun i =>
        ({ index := i
           startPoint := (sliceAt d i).startPoint
           endPoint := (sliceAt d i).endPoint } : SliceDescriptor)) = fun i => i := rfl
    rw [h2]
    exact List.map_id' (List.range d.sliceCount)
  refine ⟨?_, hmap, ?_, ?_⟩
  · rw [extractSlices, List.length_map, List.length_range]
  · rw [hmap]
    exact List.pairwise_lt_range d.sliceCount
  · intro i hi
    rw [extractSlices]
    exact getD_range_map _ d.sliceCount i _ hi

/-- The spec's concrete scenario: sliceCount = 2, slice 0 = (126, 8872, 0),
slice 1 = (9000, 15000, 0). -/
def twoSliceRecord : OTData :=
  { header := List.replicate 16 0
    unknown := List.replicate 7 0
    tempo := 2880
    trimLen := 100
    loopLen := 100
    stretch := 0
    loop := 0
    gain := 48
    quantize := 0
    trimStart := 0
    trimEnd := 15000
    loopPoint := 0
    slices := ⟨126, 8872, 0⟩ :: ⟨9000, 15000, 0⟩ :: List.replicate 62 ⟨0, 0, 0⟩
    sliceCount := 2
    checkSum := 0 }

theorem C8_ordering_witness :
    (extractSlices twoSliceRecord).length = 2 ∧
    (extractSlices twoSliceRecord).map SliceDescriptor.index = List.range 2 ∧
    (extractSlices twoSliceRecord).getD 0 ⟨0, 0, 0⟩ = ⟨0, 126, 8872⟩ ∧
    (extractSlices twoSliceRecord).getD 1 ⟨0, 0, 0⟩ = ⟨1, 9000, 15000⟩ := by
  obtain ⟨h1, h2, -, h4⟩ :=
    C8_ordering twoSliceRecord (by decide) (by simp [twoSliceRecord])
  refine ⟨h1, h2, ?_, ?_⟩
  · rw [h4 0 (by decide)]
    decide
  · rw [h4 1 (by decide)]
    decide

/-- C10 (noninterference): the descriptor sequence depends only on
sliceCount and the first sliceCount slice entries; all other fields (tempo,
trim/loop lengths and points, modes, gain, quantize, checksum, header) are
irrelevant to it. -/
theorem C10_noninterference (d d' : OTData) (hc : d.sliceCount = d'.sliceCount)
    (hb : d.sliceCount ≤ 64) (hs : ∀ i, i < d.sliceCount → sliceAt d i = sliceAt d' i) :
    extractSlices d = extractSlices d' := by
  rw [extractSlices, extractSlices, ← hc]
  exact List.map_congr_left fun i hi => by rw [hs i (List.mem_range.mp hi)]

/-- Variant of `twoSliceRecord` with every descriptor-irrelevant field changed. -/
def twoSliceRecordAlt : OTData :=
  { twoSliceRecord with
    header := List.replicate 16 70
    unknown := List.replicate 7 1
    tempo := 999999
    trimLen := 5
    loopLen := 6
    stretch := 2
    loop := 1
    gain := 7
    quantize := 255
    trimStart := 11
    trimEnd := 12
    loopPoint := 13
    checkSum := 4242 }

theorem C10_noninterference_witness :
    extractSlices twoSliceRecord = extractSlices twoSliceRecordAlt :=
  C10_noninterference twoSliceRecord twoSliceRecordAlt rfl (by decide) fun i hi => rfl

/-- An all-zero well-formed record. -/
def zeroRecord : OTData :=
  { header := List.replicate 16 0
    unknown := List.replicate 7 0
    tempo := 0
    trimLen := 0
    loopLen := 0
    stretch := 0
    loop := 0
    gain := 0
    quantize := 0
    trimStart := 0
    trimEnd := 0
    loopPoint := 0
    slices := List.replicate 64 ⟨0, 0, 0⟩
    sliceCount := 0
    checkSum := 0 }

/-- C3 counterexample: no record serialized in the documented layout is 830
bytes — this concrete record (sliceCount = 0 ≤ 64) serializes to 832 bytes —
and `load` rejects every 830-byte input, such as its 830-byte truncation, so
no "830-byte record" can round-trip as claimed. -/
theorem C3_counterexample :
    zeroRecord.sliceCount ≤ 64 ∧
    (serialize zeroRecord).length = 832 ∧
    (serialize zeroRecord).length ≠ 830 ∧
    load "z.ot" (some ((serialize zeroRecord).take 830)) =
      Except.error (otFileError "z.ot") := by
  have h : (serialize zeroRecord).length = 832 :=
    length_serialize _ (by simp [zeroRecord]) (by simp [zeroRecord]) (by simp [zeroRecord])
  refine ⟨by decide, h, by omega, load_err _ _ ?_⟩
  rw [List.length_take, h]
  omega

/-- C3 (amended): round-trip at the true record size of 832 bytes: for every
well-formed record with sliceCount ≤ 64, serializing it with all multi-byte
fields big-endian and loading the result back reproduces every scalar field
and every one of the first sliceCount slices exactly, in native order. -/
theorem C3_round_trip (file : String) (d : OTData) (hwf : WF d) (hc : d.sliceCount ≤ 64) :
    ∃ d', load file (some (serialize d)) = Except.ok d' ∧
      d'.tempo = d.tempo ∧ d'.trimLen = d.trimLen ∧ d'.loopLen = d.loopLen ∧
      d'.stretch = d.stretch ∧ d'.loop = d.loop ∧ d'.gain = d.gain ∧
      d'.quantize = d.quantize ∧ d'.trimStart = d.trimStart ∧ d'.trimEnd = d.trimEnd ∧
      d'.loopPoint = d.loopPoint ∧ d'.sliceCount = d.sliceCount ∧ d'.checkSum = d.checkSum ∧
      ∀ i, i < d.sliceCount → sliceAt d' i = sliceAt d i := by
  obtain ⟨hh, hhb, hu, hub, htp, htl, hll, hstr, hlo, hg, hq, hts, hte, hlpt, hsl, hsb,
    hct, hck⟩ := hwf
  have hlen := length_serialize d hh hu hsl
  have t23 : (serialize d).drop 23 = be32 d.tempo ++ (be32 d.trimLen ++ (be32 d.loopLen ++
      (be32 d.stretch ++ (be32 d.loop ++ (be16 d.gain ++ ([d.quantize % 256] ++
      (be32 d.trimStart ++ (be32 d.trimEnd ++ (be32 d.loopPoint ++
      ((d.slices.map serializeSlice).flatten ++
        (be32 d.sliceCount ++ be16 d.checkSum))))))))))) := by
    rw [serialize]
    simp only [List.append_assoc]
    rw [← List.append_assoc d.header d.unknown]
    exact drop_app _ 23 (by rw [List.length_append, hh, hu])
  have t27 := drop_to 27 t23 rfl
  have t31 := drop_to 31 t27 rfl
  have t35 := drop_to 35 t31 rfl
  have t39 := drop_to 39 t35 rfl
  have t43 := drop_to 43 t39 rfl
  have t45 := drop_to 45 t43 rfl
  have t46 := drop_to 46 t45 rfl
  have t50 := drop_to 50 t46 rfl
  have t54 := drop_to 54 t50 rfl
  have t58 := drop_to 58 t54 rfl
  have t826 := drop_to 826 t58 (by rw [length_flatten_slices, hsl])
  have t830 := drop_to 830 t826 rfl
  have t830x : (serialize d).drop 830 = be16 d.checkSum ++ [] := by
    rw [t830, List.append_nil]
  have e_tempo := ntohl_of_be32 htp t23
  have e_trimLen := ntohl_of_be32 htl t27
  have e_loopLen := ntohl_of_be32 hll t31
  have e_stretch := ntohl_of_be32 hstr t35
  have e_loop := ntohl_of_be32 hlo t39
  have e_gain := ntohs_of_be16 hg t43
  have e_quant : byteAt (serialize d) 45 = d.quantize := by
    have h45 := t45
    simp only [List.cons_append, List.nil_append] at h45
    rw [byteAt_of_drop h45]
    exact Nat.mod_eq_of_lt hq
  have e_trimStart := ntohl_of_be32 hts t46
  have e_trimEnd := ntohl_of_be32 hte t50
  have e_loopPt := ntohl_of_be32 hlpt t54
  have e_count := ntohl_of_be32 hct t826
  have e_ck := ntohs_of_be16 hck t830x
  refine ⟨convert (rawRead (serialize d)), load_ok file _ hlen,
    by rw [convert_tempo, rawRead_tempo]; exact e_tempo,
    by rw [convert_trimLen, rawRead_trimLen]; exact e_trimLen,
    by rw [convert_loopLen, rawRead_loopLen]; exact e_loopLen,
    by rw [convert_stretch, rawRead_stretch]; exact e_stretch,
    by rw [convert_loop, rawRead_loop]; exact e_loop,
    by rw [convert_gain, rawRead_gain]; exact e_gain,
    by rw [convert_quantize, rawRead_quantize]; exact e_quant,
    by rw [convert_trimStart, rawRead_trimStart]; exact e_trimStart,
    by rw [convert_trimEnd, rawRead_trimEnd]; exact e_trimEnd,
    by rw [convert_loopPoint, rawRead_loopPoint]; exact e_loopPt,
    by rw [convert_sliceCount, rawRead_sliceCount]; exact e_count,
    by rw [convert_checkSum, rawRead_checkSum]; exact e_ck, ?_⟩
  intro i hi
  have hi64 : i < 64 := lt_of_lt_of_le hi hc
  have hilen : i < d.slices.length := by
    rw [hsl]
    exact hi64
  obtain ⟨rest, hri⟩ :=
    flatten_slices_drop d.slices (be32 d.sliceCount ++ be16 d.checkSum) i hilen
  have hdi : (serialize d).drop (58 + 12 * i) =
      serializeSlice (d.slices.getD i ⟨0, 0, 0⟩) ++ rest := by
    rw [← List.drop_drop, t58]
    exact hri
  simp only [serializeSlice, List.append_assoc] at hdi
  have hmem : d.slices.getD i ⟨0, 0, 0⟩ ∈ d.slices := by
    rw [List.getD_eq_getElem _ _ hilen]
    exact List.getElem_mem hilen
  obtain ⟨hb1, hb2, hb3⟩ := hsb _ hmem
  have hstart := ntohl_of_be32 hb1 hdi
  have hd4 := drop_to (58 + 12 * i + 4) hdi rfl
  have hend := ntohl_of_be32 hb2 hd4
  have hd8 := drop_to (58 + 12 * i + 8) hd4 rfl
  have hloop := ntohl_of_be32 hb3 hd8
  rw [sliceAt_load (serialize d) i hi64, if_pos (by rw [e_count]; exact hi)]
  show (⟨ntohl (readLE32 (serialize d) (58 + 12 * i)),
         ntohl (readLE32 (serialize d) (58 + 12 * i + 4)),
         ntohl (readLE32 (serialize d) (58 + 12 * i + 8))⟩ : Slice) = sliceAt d i
  rw [hstart, hend, hloop, sliceAt]

/-- A well-formed record with realistic values, used as the round-trip
witness input. -/
def wfRecord : OTData :=
  { header := header_bytes
    unknown := [0, 0, 0, 0, 0, 2, 0]
    tempo := 2880
    trimLen := 100
    loopLen := 100
    stretch := 0
    loop := 0
    gain := 48
    quantize := 255
    trimStart := 0
    trimEnd := 15000
    loopPoint := 0
    slices := ⟨126, 8872, 0⟩ :: ⟨9000, 15000, 0⟩ :: List.replicate 62 ⟨0, 0, 0⟩
    sliceCount := 2
    checkSum := 123 }

theorem C3_round_trip_witness :
    WF wfRecord ∧ wfRecord.sliceCount ≤ 64 ∧
    ∃ d', load "w.ot" (some (serialize wfRecord)) = Except.ok d' ∧
      d'.tempo = 2880 ∧ d'.quantize = 255 ∧ d'.sliceCount = 2 ∧
      sliceAt d' 0 = ⟨126, 8872, 0⟩ ∧ sliceAt d' 1 = ⟨9000, 15000, 0⟩ := by
  have hwf : WF wfRecord := by decide
  refine ⟨hwf, by decide, ?_⟩
  obtain ⟨d', hok, ht, -, -, -, -, -, hqz, -, -, -, hcnt, -, hsl⟩ :=
    C3_round_trip "w.ot" wfRecord hwf (by decide)
  refine ⟨d', hok, ?_, ?_, ?_, ?_, ?_⟩
  · rw [ht]
    rfl
  · rw [hqz]
    rfl
  · rw [hcnt]
    rfl
  · rw [hsl 0 (by decide)]
    decide
  · rw [hsl 1 (by decide)]
    decide

end Octasox
